import Mathlib

/-!
Verification of the GitHub profile statistics generator
(`src/generate_stats.py`) against its design specification.

The script is embedded shallowly: HTTP traffic is modelled by explicit
response values passed in as arguments, Python dictionaries are modelled
as insertion-ordered association lists, Python float division is modelled
by exact rational division, and the `while True` pagination loop is
modelled with an explicit fuel parameter (the theorems only concern
behaviours on which the loop terminates).
-/

namespace GitHubStats

/-- A repository entity, restricted to the fields the script reads.
`priv` models the JSON field `private` (a Lean keyword). -/
structure Repo where
  name : String
  fork : Bool
  priv : Bool
  stargazers_count : Nat
  forks_count : Nat
  watchers_count : Nat
  size : Nat
deriving DecidableEq, Repr

/-- The user profile entity, restricted to the fields the aggregator reads. -/
structure User where
  followers : Nat
  following : Nat
deriving DecidableEq, Repr

/-- An HTTP response as observed by `make_request`: its status code, whether
the body text contains the lowercase words "rate limit", the optional
`X-RateLimit-Reset` header value, and the decoded JSON payload
(`none` models a body on which `response.json()` raises). -/
structure HttpResponse (α : Type) where
  status : Nat
  rateLimitBody : Bool
  resetHeader : Option Int
  body : Option α
deriving DecidableEq

/-- The outcome of one `session.get` call: either the transport layer raises
an exception, or a response object is produced. -/
inductive HttpAttempt (α : Type) where
  | exn : HttpAttempt α
  | resp : HttpResponse α → HttpAttempt α
deriving DecidableEq

/-- The exceptions that can escape the `try` block of `make_request`. -/
inductive ReqError where
  | transport
  | httpStatus (code : Nat)
  | badBody
deriving DecidableEq

/-- The rate-limit test of `make_request`:
`response.status_code == 403 and 'rate limit' in response.text.lower()`. -/
def isRateLimited {α : Type} (r : HttpResponse α) : Bool :=
  r.status == 403 && r.rateLimitBody

/-- The wait computation of `make_request`:
`reset_time = int(response.headers.get('X-RateLimit-Reset', time.time() + 60))`
followed by `wait_time = max(reset_time - int(time.time()), 60)`.
Both reads of the clock are modelled as the same instant `now`. -/
def computeWait (resetHeader : Option Int) (now : Int) : Int :=
  max (resetHeader.getD (now + 60) - now) 60

/-- `response.raise_for_status()` raises for any status in 400–599, and
afterwards `response.json()` may raise on an undecodable body. -/
def raiseForStatus {α : Type} (r : HttpResponse α) : Except ReqError α :=
  if 400 ≤ r.status ∧ r.status < 600 then .error (.httpStatus r.status)
  else
    match r.body with
    | some j => .ok j
    | none => .error .badBody

/-- Result of a `make_request` call, instrumented with the number of
`session.get` calls issued and the wait duration slept, if any. -/
structure ReqTrace (α : Type) where
  result : Option α
  requests : Nat
  waited : Option Int
deriving DecidableEq

/-- The body of the `try` block of `make_request`: the first `session.get`
outcome is `first`; when the response is a rate-limit response, the flow
sleeps for `computeWait` and issues one identical request whose outcome is
`retry`. Returns the value or the exception, the number of requests made
and the wait slept. -/
def requestAttempt {α : Type} (first retry : HttpAttempt α) (now : Int) :
    Except ReqError α × Nat × Option Int :=
  match first with
  | .exn => (.error .transport, 1, none)
  | .resp r =>
    if isRateLimited r then
      let w := computeWait r.resetHeader now
      match retry with
      | .exn => (.error .transport, 2, some w)
      | .resp r2 => (raiseForStatus r2, 2, some w)
    else (raiseForStatus r, 1, none)

/-- `make_request`: the `try` body wrapped in `except Exception: return None`. -/
def make_request {α : Type} (first retry : HttpAttempt α) (now : Int) :
    ReqTrace α :=
  match requestAttempt first retry now with
  | (.ok j, n, w) => ⟨some j, n, w⟩
  | (.error _, n, w) => ⟨none, n, w⟩

/-- C3: for every response behaviour, `make_request` never lets an exception
reach its caller: it returns `none` exactly when the request body raised some
exception (transport failure, non-2xx status, failed retry, bad body), and
returns the decoded payload exactly when the body succeeded. -/
theorem make_request_catches {α : Type} (first retry : HttpAttempt α)
    (now : Int) :
    ((make_request first retry now).result = none ↔
      ∃ e, (requestAttempt first retry now).1 = Except.error e) ∧
    (∀ j : α, (make_request first retry now).result = some j ↔
      (requestAttempt first retry now).1 = Except.ok j) := by
  unfold make_request
  rcases h : requestAttempt first retry now with ⟨res, n, w⟩
  cases res <;> simp

/-- C4: whenever the first response is a rate-limit response, the wait slept
equals `max (reset - now) 60` (with `reset` defaulting to `now + 60`), is at
least 60 seconds and hence never negative, and exactly one retry is issued
(two requests in total). -/
theorem rate_limit_wait {α : Type} (r : HttpResponse α)
    (retry : HttpAttempt α) (now : Int) (h : isRateLimited r = true) :
    (make_request (.resp r) retry now).waited =
      some (max (r.resetHeader.getD (now + 60) - now) 60) ∧
    60 ≤ computeWait r.resetHeader now ∧
    0 ≤ computeWait r.resetHeader now ∧
    (make_request (.resp r) retry now).requests = 2 := by
  have h60 : (60 : Int) ≤ computeWait r.resetHeader now := le_max_right _ _
  refine ⟨?_, h60, le_trans (by norm_num) h60, ?_⟩ <;>
    · unfold make_request requestAttempt
      cases retry with
      | exn => simp [h, computeWait]
      | resp r2 =>
        simp only [h, if_pos]
        rcases h2 : raiseForStatus r2 with e | j <;> simp [computeWait]

/-- A concrete rate-limited response used by witnesses. -/
def demoRateLimited : HttpResponse Nat :=
  ⟨403, true, some 1000, none⟩

/-- Witness for C4 at a concrete rate-limited response. -/
theorem rate_limit_wait_witness :
    (make_request (.resp demoRateLimited) .exn 900).waited = some 100 ∧
    60 ≤ computeWait demoRateLimited.resetHeader 900 ∧
    0 ≤ computeWait demoRateLimited.resetHeader 900 ∧
    (make_request (.resp demoRateLimited) .exn 900).requests = 2 := by
  have h := rate_limit_wait demoRateLimited .exn 900 (by decide)
  exact ⟨by rw [h.1]; decide, h.2.1, h.2.2.1, h.2.2.2⟩

/-! Pagination (`get_repositories`).  The response behaviour is a function
`pages : Nat → Option (List Repo)` giving, for each page number, the value
`make_request` returns for that page (`none` when the request yielded no
data).  The `while True` loop is given explicit fuel; the theorems concern
behaviours on which the loop terminates within the fuel. -/

/-- The pagination loop body: request page `page`; `if not data: break`
(true for `none` and for an empty list); `repos.extend(data)`;
`if len(data) < 100: break`; `page += 1`.  Returns the accumulated list and
the number of page requests issued. -/
def getReposAux (pages : Nat → Option (List Repo)) :
    Nat → Nat → List Repo → List Repo × Nat
  | 0, _, acc => (acc, 0)
  | fuel + 1, page, acc =>
    match pages page with
    | none => (acc, 1)
    | some data =>
      if data.isEmpty then (acc, 1)
      else if data.length < 100 then (acc ++ data, 1)
      else
        let r := getReposAux pages fuel (page + 1) (acc ++ data)
        (r.1, r.2 + 1)

/-- `get_repositories`: run the pagination loop from page 1 with an empty
accumulator. -/
def get_repositories (pages : Nat → Option (List Repo)) (fuel : Nat) :
    List Repo × Nat :=
  getReposAux pages fuel 1 []

/-- Page `k` terminates the pagination loop: the request yields no data, or
it yields a page of length strictly less than 100. -/
def pageTerminates (pages : Nat → Option (List Repo)) (k : Nat) : Prop :=
  pages k = none ∨ ∃ d, pages k = some d ∧ d.length < 100

/-- Unfolding lemma for the pagination loop: if the `m` pages starting at
`start` are full (length at least 100) and page `start + m` terminates, the
loop returns the accumulator followed by the concatenation of the pages
`start .. start + m`, having issued exactly `m + 1` requests. -/
theorem getReposAux_run (pages : Nat → Option (List Repo)) :
    ∀ (m start : Nat) (acc : List Repo) (fuel : Nat), m < fuel →
    (∀ i, i < m → ∃ d, pages (start + i) = some d ∧ 100 ≤ d.length) →
    pageTerminates pages (start + m) →
    getReposAux pages fuel start acc =
      (acc ++ ((List.range' start (m + 1)).map
        (fun i => (pages i).getD [])).flatten, m + 1) := by
  intro m
  induction m with
  | zero =>
    intro start acc fuel hfuel _ hterm
    obtain ⟨fuel, rfl⟩ : ∃ f, fuel = f + 1 := ⟨fuel - 1, by omega⟩
    rcases hterm with h | ⟨d, hd, hlen⟩
    · rw [Nat.add_zero] at h
      simp [getReposAux, h, List.range']
    · rw [Nat.add_zero] at hd
      by_cases hde : d.isEmpty
      · rw [List.isEmpty_iff] at hde
        subst hde
        simp [getReposAux, hd, List.range']
      · simp [getReposAux, hd, hde, hlen, List.range']
  | succ m ih =>
    intro start acc fuel hfuel hfull hterm
    obtain ⟨fuel, rfl⟩ : ∃ f, fuel = f + 1 := ⟨fuel - 1, by omega⟩
    obtain ⟨d, hd, hlen⟩ := hfull 0 (Nat.succ_pos m)
    rw [Nat.add_zero] at hd
    have hde : d.isEmpty = false := by
      rcases d with _ | _
      · simp at hlen
      · rfl
    have hnlt : ¬ d.length < 100 := by omega
    have ihres := ih (start + 1) (acc ++ d) fuel (by omega)
      (fun i hi => by
        have := hfull (i + 1) (by omega)
        rwa [show start + (i + 1) = start + 1 + i by omega] at this)
      (by rwa [show start + 1 + m = start + (m + 1) by omega])
    simp only [getReposAux, hd, hde, Bool.false_eq_true, if_false, hnlt,
      ihres]
    rw [List.range'_succ start (m + 1) 1, List.map_cons, List.flatten_cons,
      hd, Option.getD_some, List.append_assoc]

/-- C1: for every response behaviour in which the `k - 1` pages before page
`k` are full and page `k` terminates (short page or no data), the paginated
fetch returns exactly the in-order concatenation of the pages fetched up to
and including page `k`, and issues exactly `k` page requests — no page after
the terminating one is requested. -/
theorem get_repositories_pagination (pages : Nat → Option (List Repo))
    (k fuel : Nat) (hk : 1 ≤ k) (hfuel : k ≤ fuel)
    (hfull : ∀ i, 1 ≤ i → i < k → ∃ d, pages i = some d ∧ 100 ≤ d.length)
    (hterm : pageTerminates pages k) :
    get_repositories pages fuel =
      (((List.range' 1 k).map (fun i => (pages i).getD [])).flatten, k) := by
  obtain ⟨m, rfl⟩ : ∃ m, k = m + 1 := ⟨k - 1, by omega⟩
  have h := getReposAux_run pages m 1 [] fuel (by omega)
    (fun i hi => hfull (1 + i) (by omega) (by omega))
    (by rwa [show 1 + m = m + 1 by omega])
  rw [get_repositories, h, List.nil_append]

/-- A concrete repository used by witnesses. -/
def demoRepo : Repo := ⟨"alpha", false, false, 5, 0, 0, 10⟩

/-- A response behaviour whose first page is already short. -/
def demoPages : Nat → Option (List Repo) := fun _ => some [demoRepo]

/-- Witness for C1: with every request returning a one-element page, the
fetch stops after page 1 and returns that page. -/
theorem get_repositories_pagination_witness :
    get_repositories demoPages 3 = ([demoRepo], 1) := by
  have h := get_repositories_pagination demoPages 1 3 (by decide) (by decide)
    (fun i h1 h2 => absurd (lt_of_le_of_lt h1 h2) (by decide))
    (Or.inr ⟨[demoRepo], rfl, by decide⟩)
  rw [h]; rfl

/-! Language statistics (`get_language_stats`).  Python's
`defaultdict(int)` and `defaultdict(set)` are modelled as insertion-ordered
association lists (matching dict iteration order); a set of names is an
insertion-ordered duplicate-free list.  The per-repository language fetch
is modelled as a function `fetchLang : String → Option (List (String × Nat))`
giving, for each repository name, the value `make_request` returns for its
languages URL. -/

/-- `languages[lang] += bytes_count` on a `defaultdict(int)`: add to the
existing entry, or append a fresh entry at the end. -/
def bump : List (String × Nat) → String → Nat → List (String × Nat)
  | [], k, v => [(k, v)]
  | (k', v') :: rest, k, v =>
    if k' = k then (k', v' + v) :: rest else (k', v') :: bump rest k v

/-- `s.add(n)` on a set modelled as a duplicate-free list. -/
def addName (s : List String) (n : String) : List String :=
  if n ∈ s then s else s ++ [n]

/-- `language_repos[lang].add(repo_name)` on a `defaultdict(set)`. -/
def addRepoName : List (String × List String) → String → String →
    List (String × List String)
  | [], k, n => [(k, [n])]
  | (k', s) :: rest, k, n =>
    if k' = k then (k', addName s n) :: rest
    else (k', s) :: addRepoName rest k n

/-- The two dictionaries built by `get_language_stats`. -/
structure LangState where
  languages : List (String × Nat)
  language_repos : List (String × List String)
deriving DecidableEq

/-- One iteration of the inner loop over `lang_data.items()`:
`languages[lang] += bytes_count; language_repos[lang].add(repo['name'])`. -/
def tallyEntry (repoName : String) (st : LangState) (p : String × Nat) :
    LangState :=
  ⟨bump st.languages p.1 p.2, addRepoName st.language_repos p.1 repoName⟩

/-- One iteration of the outer loop of `get_language_stats`: skip forks,
fetch the repository's language map, and — when the fetch yielded a
non-empty map (`if lang_data:` is false for `None` and for an empty dict) —
fold its entries into the state. -/
def langStep (fetchLang : String → Option (List (String × Nat)))
    (st : LangState) (repo : Repo) : LangState :=
  if repo.fork then st
  else
    match fetchLang repo.name with
    | none => st
    | some langData =>
      if langData.isEmpty then st
      else langData.foldl (tallyEntry repo.name) st

/-- `get_language_stats`: fold the loop body over `repos[:30]` starting from
two empty dictionaries, returning `(dict(languages), language_repos)`. -/
def get_language_stats (fetchLang : String → Option (List (String × Nat)))
    (repos : List Repo) : List (String × Nat) × List (String × List String) :=
  let st := (repos.take 30).foldl (langStep fetchLang) ⟨[], []⟩
  (st.languages, st.language_repos)

/-- Ghost instrumentation of the outer loop: the names of the repositories
whose languages URL is requested (a `make_request` is issued for every
non-fork repository reached by the loop, whatever it returns). -/
def langFetchTrace (acc : List String) (repo : Repo) : List String :=
  if repo.fork then acc else acc ++ [repo.name]

/-- The list of repository names whose language maps `get_language_stats`
fetches, in request order. -/
def get_language_stats_fetched (repos : List Repo) : List String :=
  (repos.take 30).foldl langFetchTrace []

/-- The value the returned byte-count dictionary associates to `lang`
(association lists built by `bump` have duplicate-free keys, so this is the
dictionary lookup, with 0 for an absent key). -/
def dictVal (m : List (String × Nat)) (lang : String) : Nat :=
  ((m.filter (fun p => p.1 == lang)).map (fun p => p.2)).sum

/-- The byte count a fetched language map reports for `lang` (0 when the
fetch yielded no data). -/
def bytesFor (langData? : Option (List (String × Nat))) (lang : String) :
    Nat :=
  match langData? with
  | none => 0
  | some d => ((d.filter (fun p => p.1 == lang)).map (fun p => p.2)).sum

theorem dictVal_cons (k' : String) (v' : Nat) (rest : List (String × Nat))
    (lang : String) :
    dictVal ((k', v') :: rest) lang =
      (if k' == lang then v' else 0) + dictVal rest lang := by
  by_cases h : (k' == lang) = true <;> simp [dictVal, h]

theorem dictVal_bump (m : List (String × Nat)) (k : String) (v : Nat)
    (lang : String) :
    dictVal (bump m k v) lang =
      dictVal m lang + (if k == lang then v else 0) := by
  induction m with
  | nil =>
    by_cases h : (k == lang) = true <;> simp [bump, dictVal, h]
  | cons p rest ih =>
    rcases p with ⟨k', v'⟩
    by_cases h : k' = k
    · subst h
      rw [show bump ((k', v') :: rest) k' v = (k', v' + v) :: rest by
          simp [bump],
        dictVal_cons, dictVal_cons]
      split_ifs <;> omega
    · rw [show bump ((k', v') :: rest) k v = (k', v') :: bump rest k v by
          simp [bump, h],
        dictVal_cons, dictVal_cons, ih]
      ring

theorem dictVal_foldl_tally (n : String) (lang : String)
    (d : List (String × Nat)) :
    ∀ st : LangState,
    dictVal ((d.foldl (tallyEntry n) st).languages) lang =
      dictVal st.languages lang +
        ((d.filter (fun p => p.1 == lang)).map (fun p => p.2)).sum := by
  induction d with
  | nil => intro st; simp
  | cons p rest ih =>
    intro st
    rcases p with ⟨k, v⟩
    by_cases h : k == lang <;>
      simp [List.foldl_cons, ih, tallyEntry, dictVal_bump, h,
        Nat.add_assoc, Nat.add_comm, Nat.add_left_comm]

theorem dictVal_langStep (fetchLang : String → Option (List (String × Nat)))
    (lang : String) (st : LangState) (repo : Repo) :
    dictVal ((langStep fetchLang st repo).languages) lang =
      dictVal st.languages lang +
        (if repo.fork then 0 else bytesFor (fetchLang repo.name) lang) := by
  unfold langStep
  by_cases hf : repo.fork
  · simp [hf]
  · simp only [hf, Bool.false_eq_true, if_false]
    rcases hd : fetchLang repo.name with _ | d
    · simp [bytesFor]
    · by_cases he : d.isEmpty
      · rw [List.isEmpty_iff] at he
        subst he
        simp [bytesFor]
      · simp [he, dictVal_foldl_tally, bytesFor]

theorem dictVal_foldl_langStep
    (fetchLang : String → Option (List (String × Nat))) (lang : String)
    (l : List Repo) :
    ∀ st : LangState,
    dictVal ((l.foldl (langStep fetchLang) st).languages) lang =
      dictVal st.languages lang +
        ((l.filter (fun r => !r.fork)).map
          (fun r => bytesFor (fetchLang r.name) lang)).sum := by
  induction l with
  | nil => intro st; simp
  | cons r rest ih =>
    intro st
    by_cases hf : r.fork <;>
      simp [ih, dictVal_langStep, hf, Nat.add_assoc]

/-- C5: `get_language_stats` examines only the first 30 repositories (its
result on `repos` equals its result on `repos.take 30`), and the byte total
it returns for every language is the sum, over the non-fork repositories
among the first 30 in input order, of the byte counts their fetched language
maps report for that language — forked repositories never contribute. -/
theorem get_language_stats_totals
    (fetchLang : String → Option (List (String × Nat))) (repos : List Repo)
    (lang : String) :
    dictVal (get_language_stats fetchLang repos).1 lang =
      (((repos.take 30).filter (fun r => !r.fork)).map
        (fun r => bytesFor (fetchLang r.name) lang)).sum ∧
    get_language_stats fetchLang repos =
      get_language_stats fetchLang (repos.take 30) := by
  constructor
  · have h := dictVal_foldl_langStep fetchLang lang (repos.take 30) ⟨[], []⟩
    simpa [get_language_stats, dictVal] using h
  · unfold get_language_stats
    simp [List.take_take]

theorem langFetchTrace_foldl (l : List Repo) :
    ∀ acc : List String,
    l.foldl langFetchTrace acc =
      acc ++ (l.filter (fun r => !r.fork)).map (fun r => r.name) := by
  induction l with
  | nil => intro acc; simp
  | cons r rest ih =>
    intro acc
    by_cases hf : r.fork <;> simp [langFetchTrace, hf, ih]

/-- C9: the repositories whose language maps are fetched are exactly the
non-fork repositories among the first 30 input elements, in order; forks
within the first 30 positions still consume the sampling budget, so a
repository at position 31 or later is never fetched even when fewer than 30
non-fork repositories precede it. -/
theorem get_language_stats_fetch_set (repos : List Repo) :
    get_language_stats_fetched repos =
      ((repos.take 30).filter (fun r => !r.fork)).map (fun r => r.name) ∧
    get_language_stats_fetched repos =
      get_language_stats_fetched (repos.take 30) := by
  constructor
  · have h := langFetchTrace_foldl (repos.take 30) []
    simpa [get_language_stats_fetched] using h
  · unfold get_language_stats_fetched
    simp [List.take_take]

theorem bump_keys (m : List (String × Nat)) (k : String) (v : Nat) :
    (bump m k v).map (fun p => p.1) =
      if k ∈ m.map (fun p => p.1) then m.map (fun p => p.1)
      else m.map (fun p => p.1) ++ [k] := by
  induction m with
  | nil => simp [bump]
  | cons p rest ih =>
    rcases p with ⟨k', v'⟩
    by_cases h : k' = k
    · subst h; simp [bump]
    · have hks : k ≠ k' := fun hc => h hc.symm
      by_cases h2 : k ∈ rest.map (fun p => p.1) <;>
        simp [bump, h, ih, h2, hks]

theorem addRepoName_keys (m : List (String × List String)) (k n : String) :
    (addRepoName m k n).map (fun p => p.1) =
      if k ∈ m.map (fun p => p.1) then m.map (fun p => p.1)
      else m.map (fun p => p.1) ++ [k] := by
  induction m with
  | nil => simp [addRepoName]
  | cons p rest ih =>
    rcases p with ⟨k', s⟩
    by_cases h : k' = k
    · subst h; simp [addRepoName]
    · have hks : k ≠ k' := fun hc => h hc.symm
      by_cases h2 : k ∈ rest.map (fun p => p.1) <;>
        simp [addRepoName, h, ih, h2, hks]

/-- The two dictionaries' key sequences stay equal through one entry. -/
theorem tallyEntry_keys (n : String) (st : LangState) (p : String × Nat)
    (h : st.languages.map (fun q => q.1) =
      st.language_repos.map (fun q => q.1)) :
    (tallyEntry n st p).languages.map (fun q => q.1) =
      (tallyEntry n st p).language_repos.map (fun q => q.1) := by
  simp only [tallyEntry, bump_keys, addRepoName_keys]
  rw [h]

theorem foldl_tally_keys (n : String) (d : List (String × Nat)) :
    ∀ st : LangState,
    st.languages.map (fun q => q.1) = st.language_repos.map (fun q => q.1) →
    (d.foldl (tallyEntry n) st).languages.map (fun q => q.1) =
      (d.foldl (tallyEntry n) st).language_repos.map (fun q => q.1) := by
  induction d with
  | nil => intro st h; exact h
  | cons p rest ih =>
    intro st h
    exact ih (tallyEntry n st p) (tallyEntry_keys n st p h)

theorem langStep_keys (fetchLang : String → Option (List (String × Nat)))
    (st : LangState) (repo : Repo)
    (h : st.languages.map (fun q => q.1) =
      st.language_repos.map (fun q => q.1)) :
    (langStep fetchLang st repo).languages.map (fun q => q.1) =
      (langStep fetchLang st repo).language_repos.map (fun q => q.1) := by
  unfold langStep
  by_cases hf : repo.fork
  · simpa [hf] using h
  · simp only [hf, Bool.false_eq_true, if_false]
    rcases hd : fetchLang repo.name with _ | d
    · exact h
    · by_cases he : d.isEmpty
      · simpa [he] using h
      · simpa [he] using foldl_tally_keys repo.name d st h

theorem foldl_langStep_keys
    (fetchLang : String → Option (List (String × Nat))) (l : List Repo) :
    ∀ st : LangState,
    st.languages.map (fun q => q.1) = st.language_repos.map (fun q => q.1) →
    (l.foldl (langStep fetchLang) st).languages.map (fun q => q.1) =
      (l.foldl (langStep fetchLang) st).language_repos.map (fun q => q.1) := by
  induction l with
  | nil => intro st h; exact h
  | cons r rest ih =>
    intro st h
    exact ih (langStep fetchLang st r) (langStep_keys fetchLang st r h)

/-- `s.add(n)` never produces an empty set. -/
theorem addName_ne_nil (s : List String) (n : String) : addName s n ≠ [] := by
  unfold addName
  split
  · intro hc
    subst hc
    simp_all
  · simp

theorem mem_addName (s : List String) (n x : String)
    (hx : x ∈ addName s n) : x ∈ s ∨ x = n := by
  unfold addName at hx
  split at hx
  · exact Or.inl hx
  · rcases List.mem_append.1 hx with h | h
    · exact Or.inl h
    · exact Or.inr (List.mem_singleton.1 h)

/-- Every repository-name set in the dictionary is non-empty and drawn
from `A`. -/
def repoSetsOK (A : List String) (st : LangState) : Prop :=
  ∀ e ∈ st.language_repos, e.2 ≠ [] ∧ ∀ x ∈ e.2, x ∈ A

theorem addRepoName_ok (A : List String) (m : List (String × List String))
    (k n : String) (hn : n ∈ A)
    (hm : ∀ e ∈ m, e.2 ≠ [] ∧ ∀ x ∈ e.2, x ∈ A) :
    ∀ e ∈ addRepoName m k n, e.2 ≠ [] ∧ ∀ x ∈ e.2, x ∈ A := by
  induction m with
  | nil =>
    intro e he
    simp only [addRepoName, List.mem_singleton] at he
    subst he
    exact ⟨by simp, by intro x hx; rw [List.mem_singleton.1 hx]; exact hn⟩
  | cons q rest ih =>
    rcases q with ⟨k', s⟩
    intro e he
    by_cases h : k' = k
    · subst h
      rw [show addRepoName ((k', s) :: rest) k' n = (k', addName s n) :: rest
          by simp [addRepoName]] at he
      rcases List.mem_cons.1 he with he | he
      · subst he
        refine ⟨addName_ne_nil s n, fun x hx => ?_⟩
        rcases mem_addName s n x hx with h1 | h1
        · exact (hm (k', s) (List.mem_cons_self _ _)).2 x h1
        · rw [h1]; exact hn
      · exact hm e (List.mem_cons_of_mem _ he)
    · rw [show addRepoName ((k', s) :: rest) k n = (k', s) :: addRepoName rest k n
          by simp [addRepoName, h]] at he
      rcases List.mem_cons.1 he with he | he
      · subst he
        exact hm (k', s) (List.mem_cons_self _ _)
      · exact ih (fun e' he' => hm e' (List.mem_cons_of_mem _ he')) e he

theorem tallyEntry_repoSetsOK (A : List String) (n : String) (hn : n ∈ A)
    (st : LangState) (p : String × Nat) (h : repoSetsOK A st) :
    repoSetsOK A (tallyEntry n st p) :=
  addRepoName_ok A st.language_repos p.1 n hn h

theorem foldl_tally_repoSetsOK (A : List String) (n : String) (hn : n ∈ A)
    (d : List (String × Nat)) :
    ∀ st : LangState, repoSetsOK A st →
    repoSetsOK A (d.foldl (tallyEntry n) st) := by
  induction d with
  | nil => intro st h; exact h
  | cons p rest ih =>
    intro st h
    exact ih (tallyEntry n st p) (tallyEntry_repoSetsOK A n hn st p h)

theorem langStep_repoSetsOK (A : List String)
    (fetchLang : String → Option (List (String × Nat))) (st : LangState)
    (repo : Repo) (hname : repo.fork = false → repo.name ∈ A)
    (h : repoSetsOK A st) : repoSetsOK A (langStep fetchLang st repo) := by
  unfold langStep
  by_cases hf : repo.fork
  · simpa [hf] using h
  · simp only [hf, Bool.false_eq_true, if_false]
    rcases hd : fetchLang repo.name with _ | d
    · exact h
    · by_cases he : d.isEmpty
      · simpa [he] using h
      · simpa [he] using foldl_tally_repoSetsOK A repo.name
          (hname (Bool.eq_false_iff.mpr hf)) d st h

theorem foldl_langStep_repoSetsOK (A : List String)
    (fetchLang : String → Option (List (String × Nat))) (l : List Repo) :
    ∀ st : LangState, (∀ r ∈ l, r.fork = false → r.name ∈ A) →
    repoSetsOK A st → repoSetsOK A (l.foldl (langStep fetchLang) st) := by
  induction l with
  | nil => intro st _ h; exact h
  | cons r rest ih =>
    intro st hl h
    exact ih (langStep fetchLang st r)
      (fun r' hr' => hl r' (List.mem_cons_of_mem _ hr'))
      (langStep_repoSetsOK A fetchLang st r (hl r (List.mem_cons_self _ _)) h)

/-- C10: the two dictionaries returned by `get_language_stats` have the same
key sequence (hence the same set of language keys), and every language key's
set of contributing repository names is non-empty and contains only names of
non-fork repositories among the first 30 input elements. -/
theorem get_language_stats_invariants
    (fetchLang : String → Option (List (String × Nat))) (repos : List Repo) :
    (get_language_stats fetchLang repos).1.map (fun p => p.1) =
      (get_language_stats fetchLang repos).2.map (fun p => p.1) ∧
    ∀ e ∈ (get_language_stats fetchLang repos).2,
      e.2 ≠ [] ∧ ∀ x ∈ e.2,
        x ∈ ((repos.take 30).filter (fun r => !r.fork)).map
          (fun r => r.name) := by
  constructor
  · exact foldl_langStep_keys fetchLang (repos.take 30) ⟨[], []⟩ rfl
  · refine foldl_langStep_repoSetsOK _ fetchLang (repos.take 30) ⟨[], []⟩
      (fun r hr hf => ?_) (by intro e he; simp at he)
    exact List.mem_map_of_mem _ (List.mem_filter.2 ⟨hr, by simp [hf]⟩)

/-- A concrete language fetch behaviour used by witnesses. -/
def demoFetch : String → Option (List (String × Nat)) :=
  fun _ => some [("Python", 120)]

/-- Witness for C10 at a concrete input: the single entry of the
repository-name dictionary is non-empty and drawn from the sampled
non-fork names. -/
theorem get_language_stats_invariants_witness :
    ("Python", ["alpha"]) ∈ (get_language_stats demoFetch [demoRepo]).2 ∧
    (("Python", ["alpha"]) : String × List String).2 ≠ [] ∧
    ∀ x ∈ (("Python", ["alpha"]) : String × List String).2,
      x ∈ (([demoRepo].take 30).filter (fun r => !r.fork)).map
        (fun r => r.name) := by
  have hmem : ("Python", ["alpha"]) ∈
      (get_language_stats demoFetch [demoRepo]).2 := by decide
  exact ⟨hmem,
    (get_language_stats_invariants demoFetch [demoRepo]).2 _ hmem⟩

/-! Advanced statistics (`calculate_advanced_stats`). -/

/-- The statistics dictionary built by `calculate_advanced_stats`.
`avg_stars_per_repo` is a Python float division, modelled exactly in ℚ. -/
structure Stats where
  total_repos : Nat
  public_repos : Nat
  total_stars : Nat
  total_forks : Nat
  total_watchers : Nat
  total_size : Nat
  followers : Nat
  following : Nat
  original_repos : Nat
  forked_repos : Nat
  avg_stars_per_repo : ℚ
  most_starred_repo : String
  most_starred_stars : Nat
deriving DecidableEq, Repr

/-- Python's `max(repos, key=lambda x: x['stargazers_count'])`: scan left to
right, replacing the current best only on a strictly greater key, so ties are
broken by first occurrence; undefined (here `none`) on an empty list, which
the caller guards with `if repos else`. -/
def maxByStars : List Repo → Option Repo
  | [] => none
  | r :: rs =>
    some (rs.foldl
      (fun best x =>
        if x.stargazers_count > best.stargazers_count then x else best) r)

/-- `calculate_advanced_stats(user, repos)`. -/
def calculate_advanced_stats (user : User) (repos : List Repo) : Stats :=
  let total_stars := (repos.map (fun r => r.stargazers_count)).sum
  let original_repos := repos.filter (fun r => !r.fork)
  let forked_repos := repos.filter (fun r => r.fork)
  { total_repos := repos.length
    public_repos := (repos.filter (fun r => !r.priv)).length
    total_stars := total_stars
    total_forks := (repos.map (fun r => r.forks_count)).sum
    total_watchers := (repos.map (fun r => r.watchers_count)).sum
    total_size := (repos.map (fun r => r.size)).sum
    followers := user.followers
    following := user.following
    original_repos := original_repos.length
    forked_repos := forked_repos.length
    avg_stars_per_repo :=
      (total_stars : ℚ) / ((max original_repos.length 1 : Nat) : ℚ)
    most_starred_repo :=
      match maxByStars repos with
      | some r => r.name
      | none => "None"
    most_starred_stars :=
      match maxByStars repos with
      | some r => r.stargazers_count
      | none => 0 }

/-- C7: on an empty repository sequence the aggregator yields the sentinel
values — 0 original repositories, most-starred repository "None" with 0
stars, and an average of 0 stars per repository, the division being by
`max(len(original_repos), 1) = 1` rather than by zero. -/
theorem calculate_advanced_stats_empty (user : User) :
    (calculate_advanced_stats user []).original_repos = 0 ∧
    (calculate_advanced_stats user []).most_starred_repo = "None" ∧
    (calculate_advanced_stats user []).most_starred_stars = 0 ∧
    (calculate_advanced_stats user []).avg_stars_per_repo = 0 := by
  refine ⟨rfl, rfl, rfl, ?_⟩
  show (0 : ℚ) / ((max 0 1 : Nat) : ℚ) = 0
  norm_num

/-- C8: on a two-repository list with 5 and 12 stars and no forks, the
aggregator reports 17 total stars, 12 stars on the most-starred repository,
and an average of 17/2 = 8.5 stars per original repository. -/
theorem calculate_advanced_stats_pair (user : User) (r1 r2 : Repo)
    (h1s : r1.stargazers_count = 5) (h1f : r1.fork = false)
    (h2s : r2.stargazers_count = 12) (h2f : r2.fork = false) :
    (calculate_advanced_stats user [r1, r2]).total_stars = 17 ∧
    (calculate_advanced_stats user [r1, r2]).most_starred_stars = 12 ∧
    (calculate_advanced_stats user [r1, r2]).avg_stars_per_repo = 17 / 2 := by
  refine ⟨?_, ?_, ?_⟩
  · simp [calculate_advanced_stats, h1s, h2s]
  · simp [calculate_advanced_stats, maxByStars, h1s, h2s]
  · simp [calculate_advanced_stats, h1s, h2s, h1f, h2f]

/-- A concrete user used by witnesses. -/
def demoUser : User := ⟨7, 3⟩

/-- A second and third concrete repository used by witnesses. -/
def repoFive : Repo := ⟨"five", false, false, 5, 0, 0, 0⟩

def repoTwelve : Repo := ⟨"twelve", false, false, 12, 1, 2, 3⟩

/-- Witness for C8 at concrete repositories. -/
theorem calculate_advanced_stats_pair_witness :
    (calculate_advanced_stats demoUser [repoFive, repoTwelve]).total_stars
        = 17 ∧
    (calculate_advanced_stats demoUser
        [repoFive, repoTwelve]).most_starred_stars = 12 ∧
    (calculate_advanced_stats demoUser
        [repoFive, repoTwelve]).avg_stars_per_repo = 17 / 2 :=
  calculate_advanced_stats_pair demoUser repoFive repoTwelve rfl rfl rfl rfl

/-! Language percentages and top-8 selection (`generate_modern_readme`). -/

/-- `total_bytes = sum(languages.values())`. -/
def totalBytes (languages : List (String × Nat)) : Nat :=
  (languages.map (fun p => p.2)).sum

/-- The percentage dictionary of `generate_modern_readme`:
`lang: bytes_count / total_bytes * 100` for every language when
`total_bytes > 0`, and the empty dictionary otherwise.  Python float
division is modelled exactly in ℚ. -/
def lang_percentages (languages : List (String × Nat)) :
    List (String × ℚ) :=
  if 0 < totalBytes languages then
    languages.map
      (fun p => (p.1, (p.2 : ℚ) / (totalBytes languages : ℚ) * 100))
  else []

/-- `top_languages = sorted(lang_percentages.items(), key=lambda x: x[1],
reverse=True)[:8]`: a stable sort by descending percentage, keeping the
first 8. -/
def top_languages (languages : List (String × Nat)) : List (String × ℚ) :=
  ((lang_percentages languages).mergeSort
    (fun a b => decide (b.2 ≤ a.2))).take 8

/-- C6: each language's percentage is `bytes / totalBytes * 100`; when the
total is positive the percentages sum exactly to 100 (in exact rational
arithmetic), when the total is 0 the dictionary is empty so every percentage
read is 0 and the sum is 0; and the top-languages selection keeps at most 8
entries of the percentage dictionary, in descending percentage order. -/
theorem lang_percentages_spec (L : List (String × Nat)) :
    (totalBytes L = 0 → lang_percentages L = []) ∧
    (0 < totalBytes L →
      ((lang_percentages L).map (fun p => p.2)).sum = 100 ∧
      ∀ p ∈ L, (p.1, (p.2 : ℚ) / (totalBytes L : ℚ) * 100) ∈
        lang_percentages L) ∧
    (top_languages L).length ≤ 8 ∧
    (top_languages L).Pairwise (fun a b => b.2 ≤ a.2) ∧
    (∀ x ∈ top_languages L, x ∈ lang_percentages L) := by
  refine ⟨?_, ?_, ?_, ?_, ?_⟩
  · intro h
    simp [lang_percentages, h]
  · intro h
    constructor
    · have hT : ((totalBytes L : ℚ)) ≠ 0 := by
        exact_mod_cast Nat.pos_iff_ne_zero.1 h
      rw [lang_percentages, if_pos h, List.map_map]
      have hcomp :
          ((fun p : String × ℚ => p.2) ∘
            (fun p : String × Nat =>
              (p.1, (p.2 : ℚ) / (totalBytes L : ℚ) * 100))) =
          fun p : String × Nat =>
            (p.2 : ℚ) * (100 / (totalBytes L : ℚ)) := by
        funext p
        simp only [Function.comp]
        ring
      rw [hcomp, List.sum_map_mul_right]
      have hsum : (L.map (fun p : String × Nat => (p.2 : ℚ))).sum =
          (totalBytes L : ℚ) := by
        rw [totalBytes, Nat.cast_list_sum, List.map_map]
        rfl
      rw [hsum]
      field_simp
    · intro p hp
      rw [lang_percentages, if_pos h]
      exact List.mem_map_of_mem _ hp
  · rw [top_languages]
    exact List.length_take_le 8 _
  · have hs := @List.sorted_mergeSort (String × ℚ)
      (fun a b => decide (b.2 ≤ a.2))
      (fun a b c hab hbc => by
        simp only [decide_eq_true_eq] at *
        exact le_trans hbc hab)
      (fun a b => by
        simp only [Bool.or_eq_true, decide_eq_true_eq]
        exact le_total b.2 a.2)
      (lang_percentages L)
    have hp : ((lang_percentages L).mergeSort
        (fun a b => decide (b.2 ≤ a.2))).Pairwise
        (fun a b : String × ℚ => b.2 ≤ a.2) := by
      refine hs.imp ?_
      intro a b hab
      simpa using hab
    exact hp.sublist (List.take_sublist 8 _)
  · intro x hx
    have hm := List.mem_of_mem_take hx
    rwa [List.mem_mergeSort] at hm

/-- Concrete language byte counts used by witnesses. -/
def demoLangs : List (String × Nat) := [("Python", 3), ("C", 1)]

/-- Witness for C6: at a concrete positive-total dictionary the percentages
sum to 100 and the recorded entry of a member language is its exact
percentage. -/
theorem lang_percentages_spec_witness :
    0 < totalBytes demoLangs ∧
    ((lang_percentages demoLangs).map (fun p => p.2)).sum = 100 ∧
    ("Python", (3 : ℚ) / (totalBytes demoLangs : ℚ) * 100) ∈
      lang_percentages demoLangs := by
  have h := ((lang_percentages_spec demoLangs).2.1 (by decide))
  exact ⟨by decide, h.1, h.2 ("Python", 3) (by decide)⟩

/-! The main run (`run`).  The user-profile fetch result is an
`Option User` (`none` models `make_request` returning `None`, on which
`if not user` is true); the repository pages and language fetches are
response behaviours as above.  README rendering and the file write are
out-of-scope string templating and I/O and cannot fail in the model, so
after both guards the run returns `True`. -/

/-- `run()`: `if not user: return False`; `if not repos: return False`
(`not repos` is true for the empty list, whatever the requests returned);
then language statistics, advanced statistics, README generation and the
file write, and `return True`. -/
def run (user? : Option User) (pages : Nat → Option (List Repo))
    (fetchLang : String → Option (List (String × Nat))) (fuel : Nat) :
    Bool :=
  match user? with
  | none => false
  | some user =>
    let repos := (get_repositories pages fuel).1
    if repos.isEmpty then false
    else
      let _langStats := get_language_stats fetchLang repos
      let _stats := calculate_advanced_stats user repos
      true

/-- A repository-page behaviour on which every request succeeds and returns
an empty page. -/
def emptyPages : Nat → Option (List Repo) := fun _ => some []

/-- A language fetch behaviour returning no data. -/
def noLangData : String → Option (List (String × Nat)) := fun _ => none

/-- C2 counterexample: the user profile is fetched and every repository page
request succeeds (page 1 returns `some []`, a successful fetch of an empty
collection), yet `run` returns `false` — so empty fetched data is by itself
a failure, contradicting the claim that only an unfetchable mandatory
resource fails the run. -/
theorem run_fails_on_empty_repo_list :
    emptyPages 1 = some [] ∧
    run (some demoUser) emptyPages noLangData 1 = false :=
  ⟨rfl, rfl⟩

/-- C2 as amended: the run fails exactly when the user-profile fetch yields
no data or the computed repository list is empty — an empty repository list
counts as failure even when every page request succeeded — and failures of
the language-map fetches never affect the outcome. -/
theorem run_failure_characterization (user? : Option User)
    (pages : Nat → Option (List Repo))
    (fetchLang fetchLang' : String → Option (List (String × Nat)))
    (fuel : Nat) :
    (run user? pages fetchLang fuel = false ↔
      user? = none ∨ (get_repositories pages fuel).1 = []) ∧
    run user? pages fetchLang fuel = run user? pages fetchLang' fuel := by
  cases user? with
  | none => simp [run]
  | some user =>
    constructor
    · constructor
      · intro hf
        by_cases h : (get_repositories pages fuel).1.isEmpty
        · exact Or.inr (by simpa using h)
        · simp [run, h] at hf
      · intro hor
        rcases hor with h | h
        · simp at h
        · simp [run, h]
    · by_cases h : (get_repositories pages fuel).1.isEmpty <;>
        simp [run, h]

end GitHubStats
